import Mathlib

/-!
Verification of the hashgoblin core against its specification.

The Rust sources are shallowly embedded: strings are lists of characters
(`Str`), paths are their raw string form, filesystem queries and digest
computation are oracles passed explicitly, and fallible Rust functions
return `Except`.  Rust `VecDeque` front/back operations become list
operations (pop at the head, push at the tail).
-/

/-- Rust `String` / `&str`, embedded as a list of characters. -/
abbrev Str := List Char

/-- Rust `PathBuf` in its lossy UTF-8 string form (`to_string_lossy`). -/
abbrev RPath := Str

/-- ASCII lowercasing of one character; Rust `str::to_lowercase` restricted
to the ASCII plane, which covers every valid algorithm token. -/
def asciiToLower (c : Char) : Char :=
  if 65 ≤ c.toNat ∧ c.toNat ≤ 90 then Char.ofNat (c.toNat + 32) else c

/-- Rust `str::to_lowercase` (ASCII fragment). -/
def strToLower (s : Str) : Str := s.map asciiToLower

/-- Rust `str::split_once(c)`: split at the first occurrence of `c`. -/
def splitOnceChar (c : Char) : Str → Option (Str × Str)
  | [] => none
  | x :: xs =>
    if x = c then some ([], xs)
    else (splitOnceChar c xs).map (fun p => (x :: p.1, p.2))

/-- Rust `str::rsplit_once(c)`: split at the last occurrence of `c`.
Used only to state the specification's "split at the last `|`" reading. -/
def rsplitOnceChar (c : Char) (s : Str) : Option (Str × Str) :=
  match splitOnceChar c s.reverse with
  | none => none
  | some (a, b) => some (b.reverse, a.reverse)

/-- `src/error.rs`: the `Error` enum.  `io::Error` payloads are embedded as
their message strings. -/
inductive Error where
  | IsDir (path : Str)
  | Io (msg : Str) (path : Str)
  | OutputRead (msg : Str)
  | OutputWrite (msg : Str)
  | OutputFinish (msg : Str)
  | FileFormat
  | InvalidHash (msg : Str)
  | ReadLine (msg : Str)
  | AuditEmptyDir (path : Str)
deriving DecidableEq, Repr

/-- `src/hashing.rs`: the `HashType` enum, in source declaration order. -/
inductive HashType where
  | Md5
  | Sha256
  | Sha1
  | Tiger
  | Whirlpool
deriving DecidableEq, Repr

/-- `HashType::as_str`. -/
def HashType.as_str : HashType → Str
  | .Md5 => "md5".toList
  | .Sha256 => "sha256".toList
  | .Sha1 => "sha1".toList
  | .Tiger => "tiger".toList
  | .Whirlpool => "whirlpool".toList

/-- `impl FromStr for HashType` (`src/hashing.rs` lines 34-49): match on the
lowercased token, otherwise fail with the message listing valid options.
The message interpolates the original (non-lowercased) input `s`. -/
def HashType.from_str (s : Str) : Except Str HashType :=
  let t := strToLower s
  if t = "md5".toList then .ok .Md5
  else if t = "sha1".toList then .ok .Sha1
  else if t = "sha256".toList then .ok .Sha256
  else if t = "tiger".toList then .ok .Tiger
  else if t = "whirlpool".toList then .ok .Whirlpool
  else .error ("invalid hash: ".toList ++ s ++
    ", possible options are: sha256, tiger, whirlpool, sha1, md5".toList)

/-- `src/exec/mod.rs`: `HashData(PathBuf, Option<String>)`.  The second field
holds the comma-joined digest string, `none` for an empty directory. -/
structure HashData where
  path : RPath
  hash : Option Str
deriving DecidableEq, Repr

/-- `impl Display for HashData` (`src/exec/mod.rs` lines 59-68):
`"{path}|{hash-or-empty}"`. -/
def HashData.display (hd : HashData) : Str :=
  hd.path ++ '|' :: (hd.hash.getD [])

/-- `HashData::try_from_string` (`src/exec/mod.rs` lines 71-79): split the
line at the first `|` (`split_once`), an empty right side is an empty
directory accepted only under `empty_dirs`. -/
def HashData.try_from_string (value : Str) (empty_dirs : Bool) :
    Except Error HashData :=
  match splitOnceChar '|' value with
  | none => .error .FileFormat
  | some (path, hash) =>
    match hash.isEmpty, empty_dirs with
    | true, true => .ok ⟨path, none⟩
    | true, false => .error (.AuditEmptyDir path)
    | false, _ => .ok ⟨path, some hash⟩

/-- The specification's reading of data-line parsing for claim C2: split at
the *last* `|` instead of the first; everything else as the source. -/
def specParseLineLastBar (value : Str) (empty_dirs : Bool) :
    Except Error HashData :=
  match rsplitOnceChar '|' value with
  | none => .error .FileFormat
  | some (path, hash) =>
    match hash.isEmpty, empty_dirs with
    | true, true => .ok ⟨path, none⟩
    | true, false => .error (.AuditEmptyDir path)
    | false, _ => .ok ⟨path, some hash⟩

theorem splitOnceChar_not_mem {c : Char} {s : Str} (h : c ∉ s) :
    splitOnceChar c s = none := by
  induction s with
  | nil => rfl
  | cons x xs ih =>
    simp only [List.mem_cons, not_or] at h
    simp [splitOnceChar, Ne.symm h.1, ih h.2]

theorem splitOnceChar_append {c : Char} {p : Str} (h : c ∉ p) (t : Str) :
    splitOnceChar c (p ++ c :: t) = some (p, t) := by
  induction p with
  | nil => simp [splitOnceChar]
  | cons x xs ih =>
    simp only [List.mem_cons, not_or] at h
    simp [splitOnceChar, Ne.symm h.1, ih h.2]

theorem toNat_charOfNat {n : Nat} (h : n.isValidChar) :
    (Char.ofNat n).toNat = n := by
  have hlt : n < 2 ^ 32 := by
    rcases h with h | h
    · omega
    · omega
  simp [Char.ofNat, h, Char.ofNatAux, Char.toNat, UInt32.toNat, BitVec.toNat_ofNat,
    Nat.mod_eq_of_lt hlt]

theorem asciiToLower_idem (c : Char) :
    asciiToLower (asciiToLower c) = asciiToLower c := by
  unfold asciiToLower
  split
  · rename_i h
    have hv : (c.toNat + 32).isValidChar := by
      left
      omega
    rw [if_neg]
    rw [toNat_charOfNat hv]
    omega
  · rfl

theorem strToLower_idem (s : Str) : strToLower (strToLower s) = strToLower s := by
  induction s with
  | nil => rfl
  | cons x xs ih =>
    simp only [strToLower, List.map_cons] at ih ⊢
    rw [asciiToLower_idem]
    exact congrArg _ ih

/-- C6 counterexample: the claim says parsing `s` and parsing the lowercase
of `s` give the same result for every string; on the invalid token `MD5X`
both fail, but the failure messages differ because the message quotes the
original (non-lowercased) input, so the results are not equal. -/
theorem c6_counterexample :
    strToLower "MD5X".toList = "md5x".toList ∧
    HashType.from_str "MD5X".toList =
      .error "invalid hash: MD5X, possible options are: sha256, tiger, whirlpool, sha1, md5".toList ∧
    HashType.from_str (strToLower "MD5X".toList) =
      .error "invalid hash: md5x, possible options are: sha256, tiger, whirlpool, sha1, md5".toList ∧
    HashType.from_str "MD5X".toList ≠ HashType.from_str (strToLower "MD5X".toList) := by
  refine ⟨rfl, rfl, rfl, ?_⟩
  intro h
  have h' : (Except.error "invalid hash: MD5X, possible options are: sha256, tiger, whirlpool, sha1, md5".toList
      : Except Str HashType)
      = Except.error "invalid hash: md5x, possible options are: sha256, tiger, whirlpool, sha1, md5".toList := h
  injection h' with h''
  exact absurd h'' (by decide)

/-- C6 (amended): every `HashType` round-trips through its lowercase token;
parsing is case-insensitive up to the error payload (`from_str s` and
`from_str (toLower s)` agree on success and on the parsed value); every
failure message quotes the input and lists the valid tokens sha256, tiger,
whirlpool, sha1, md5; and every input whose lowercase form is outside the
closed token set {md5, sha1, sha256, tiger, whirlpool} does fail, with that
message. -/
theorem c6_amended_hash_tokens :
    (∀ h : HashType, HashType.from_str h.as_str = .ok h) ∧
    (∀ s : Str, (HashType.from_str (strToLower s)).toOption
        = (HashType.from_str s).toOption) ∧
    (∀ s m : Str, HashType.from_str s = .error m →
      m = "invalid hash: ".toList ++ s
          ++ ", possible options are: sha256, tiger, whirlpool, sha1, md5".toList) ∧
    (∀ s : Str,
      strToLower s ∉ ["md5".toList, "sha1".toList, "sha256".toList,
        "tiger".toList, "whirlpool".toList] →
      HashType.from_str s
        = .error ("invalid hash: ".toList ++ s
            ++ ", possible options are: sha256, tiger, whirlpool, sha1, md5".toList)) := by
  refine ⟨fun h => by cases h <;> rfl, fun s => ?_, fun s m h => ?_, fun s hs => ?_⟩
  · simp only [HashType.from_str, strToLower_idem]
    split_ifs <;> rfl
  · simp only [HashType.from_str] at h
    split_ifs at h
    injection h with h'
    exact h'.symm
  · simp only [HashType.from_str]
    split_ifs with h1 h2 h3 h4 h5
    · exact absurd (by simp [h1]) hs
    · exact absurd (by simp [h2]) hs
    · exact absurd (by simp [h3]) hs
    · exact absurd (by simp [h4]) hs
    · exact absurd (by simp [h5]) hs
    · rfl

/-- C6 witness: the amended theorem applied at the concrete invalid token
`xyz`: its lowercase form is outside the token set, so parsing fails with
the message quoting it, and that message has the stated shape. -/
theorem c6_amended_hash_tokens_witness :
    HashType.from_str "xyz".toList
      = .error ("invalid hash: ".toList ++ "xyz".toList
          ++ ", possible options are: sha256, tiger, whirlpool, sha1, md5".toList) ∧
    ("invalid hash: xyz, possible options are: sha256, tiger, whirlpool, sha1, md5".toList : Str)
      = "invalid hash: ".toList ++ "xyz".toList
        ++ ", possible options are: sha256, tiger, whirlpool, sha1, md5".toList :=
  ⟨c6_amended_hash_tokens.2.2.2 "xyz".toList (by decide),
   c6_amended_hash_tokens.2.2.1 "xyz".toList _ rfl⟩

/-- C2 counterexample: the claim says data lines split at the *last* `|`.
On the line `a|b|c`, `HashData::try_from_string` (which uses `split_once`,
the first `|`) yields path `a` with digests `b|c`, while the last-`|`
reading yields path `a|b` with digests `c`; the two disagree. -/
theorem c2_counterexample :
    HashData.try_from_string "a|b|c".toList true = .ok ⟨"a".toList, some "b|c".toList⟩ ∧
    specParseLineLastBar "a|b|c".toList true = .ok ⟨"a|b".toList, some "c".toList⟩ ∧
    HashData.try_from_string "a|b|c".toList true ≠ specParseLineLastBar "a|b|c".toList true := by
  refine ⟨rfl, rfl, ?_⟩
  intro h
  have h' : (Except.ok (⟨"a".toList, some "b|c".toList⟩ : HashData) : Except Error HashData)
      = Except.ok ⟨"a|b".toList, some "c".toList⟩ := h
  injection h' with h''
  exact absurd h'' (by decide)

/-- C2 (amended): a manifest data line is split at the *first* `|`
(`split_once`); an empty right side yields an empty-directory record when
`empty_dirs = true` and fails with `AuditEmptyDir(path)` otherwise; a line
with no `|` fails with `FileFormat`. -/
theorem c2_amended_parse_first_bar :
    (∀ (p t : Str) (ed : Bool), '|' ∉ p →
      HashData.try_from_string (p ++ '|' :: t) ed =
        if t.isEmpty then
          (if ed then .ok ⟨p, none⟩ else .error (.AuditEmptyDir p))
        else .ok ⟨p, some t⟩) ∧
    (∀ (line : Str) (ed : Bool), '|' ∉ line →
      HashData.try_from_string line ed = .error .FileFormat) := by
  constructor
  · intro p t ed hp
    cases hte : t.isEmpty <;> cases ed <;>
      simp [HashData.try_from_string, splitOnceChar_append hp, hte]
  · intro line ed hl
    simp [HashData.try_from_string, splitOnceChar_not_mem hl]

/-- C2 witness: the amended theorem applied at concrete lines covering the
empty-directory accept/reject cases, the digest case, and the missing-`|`
case. -/
theorem c2_amended_parse_first_bar_witness :
    HashData.try_from_string ("dir".toList ++ '|' :: []) true = .ok ⟨"dir".toList, none⟩ ∧
    HashData.try_from_string ("dir".toList ++ '|' :: []) false
      = .error (.AuditEmptyDir "dir".toList) ∧
    HashData.try_from_string ("a".toList ++ '|' :: "beef".toList) true
      = .ok ⟨"a".toList, some "beef".toList⟩ ∧
    HashData.try_from_string "nobar".toList true = .error .FileFormat := by
  refine ⟨?_, ?_, ?_, c2_amended_parse_first_bar.2 "nobar".toList true (by decide)⟩
  · have h := c2_amended_parse_first_bar.1 "dir".toList [] true (by decide)
    simpa using h
  · have h := c2_amended_parse_first_bar.1 "dir".toList [] false (by decide)
    simpa using h
  · have h := c2_amended_parse_first_bar.1 "a".toList "beef".toList true (by decide)
    simpa using h

/-- C3 counterexample: the claim quantifies over every writer record; for
the record with path `a|b` (a path containing `|`) and digest string `c`,
the serialized line is `a|b|c`, and parsing it back yields the different
record `(a, b|c)`, so the round trip fails. -/
theorem c3_counterexample :
    HashData.display ⟨"a|b".toList, some "c".toList⟩ = "a|b|c".toList ∧
    HashData.try_from_string (HashData.display ⟨"a|b".toList, some "c".toList⟩) true
      = .ok ⟨"a".toList, some "b|c".toList⟩ ∧
    (⟨"a".toList, some "b|c".toList⟩ : HashData) ≠ ⟨"a|b".toList, some "c".toList⟩ :=
  ⟨rfl, rfl, by decide⟩

/-- C3 (amended): for every record whose path contains no `|` and whose
digest string, when present, is non-empty, parsing the serialized line with
`empty_dirs = true` returns the original record, and re-serializing the
parsed record reproduces the identical line. -/
theorem c3_amended_roundtrip (p : Str) (h : Option Str)
    (hp : '|' ∉ p) (hh : ∀ d, h = some d → d ≠ []) :
    HashData.try_from_string (HashData.display ⟨p, h⟩) true = .ok ⟨p, h⟩ ∧
    ∀ r : HashData,
      HashData.try_from_string (HashData.display ⟨p, h⟩) true = .ok r →
        r.display = HashData.display ⟨p, h⟩ := by
  have key : HashData.try_from_string (HashData.display ⟨p, h⟩) true = .ok ⟨p, h⟩ := by
    cases h with
    | none => simp [HashData.display, HashData.try_from_string, splitOnceChar_append hp]
    | some d =>
      have hd : d ≠ [] := hh d rfl
      cases d with
      | nil => exact absurd rfl hd
      | cons x xs =>
        simp [HashData.display, HashData.try_from_string, splitOnceChar_append hp]
  refine ⟨key, fun r hr => ?_⟩
  rw [key] at hr
  injection hr with hr'
  rw [← hr']

/-- C3 witness: the amended round trip at the concrete record
`(file.bin, some beef)`. -/
theorem c3_amended_roundtrip_witness :
    HashData.try_from_string
      (HashData.display ⟨"file.bin".toList, some "beef".toList⟩) true
      = .ok ⟨"file.bin".toList, some "beef".toList⟩ :=
  (c3_amended_roundtrip "file.bin".toList (some "beef".toList) (by decide)
    (fun d hd => by cases hd; decide)).1

/-- `path_string` (`src/exec/mod.rs` lines 36-38): `Path::to_string_lossy`,
the identity in this raw-string embedding. -/
def path_string (path : RPath) : Str := path

/-- Rust `Path::ancestors().nth(1)`: the immediate parent of a path.  Paths
are taken in normalized form (components joined by single `/`, no trailing
separator); the sole ancestor of a single component is the empty path, and
the empty path has no parent, as in Rust. -/
def parentPath (p : RPath) : Option RPath :=
  if p = [] then none
  else some (List.intercalate ['/'] ((p.splitOn '/').dropLast))

/-- `src/exec/checker.rs` lines 20-25: the `AuditError` enum
(`EmptyDir` is the spec's `EmptyDirUnexpected`). -/
inductive AuditError where
  | NotFound (path : Str)
  | Mismatch (path : Str)
  | Extra (path : Str)
  | EmptyDir (path : Str)
deriving DecidableEq, Repr

/-- `src/exec/checker.rs` lines 111-114: the `ComparedPath` enum. -/
inductive ComparedPath where
  | Audit (e : AuditError)
  | Unrelated
deriving DecidableEq, Repr

/-- `compare_paths` (`src/exec/checker.rs` lines 116-144).  The live
filesystem query `Path::is_dir` is the oracle `is_dir`. -/
def compare_paths (is_dir : RPath → Bool) (reader_path path : RPath) :
    Except ComparedPath Unit :=
  if reader_path = path then .ok ()
  else
    match is_dir reader_path, is_dir path with
    | true, false =>
      match parentPath path with
      | some ancestor =>
        if ancestor = reader_path then
          .error (.Audit (.Extra (path_string path)))
        else .error .Unrelated
      | none => .error .Unrelated
    | false, true =>
      match parentPath reader_path with
      | some ancestor =>
        if ancestor = path then
          .error (.Audit (.EmptyDir (path_string path)))
        else .error .Unrelated
      | none => .error .Unrelated
    | _, _ => .error .Unrelated

/-- The loop body of `Checker::search_backlog` (`src/exec/checker.rs` lines
196-228), with the iteration count (`backlog.len()` at entry) as fuel.  The
cancel flag cannot change during the loop in this single-thread embedding,
so it is the constant `canceled`.  Returns the `Result<bool, AuditError>`
together with the backlog left behind. -/
def searchBacklogGo (is_dir : RPath → Bool) (canceled : Bool) (hd : HashData) :
    Nat → List HashData → Except AuditError Bool × List HashData
  | 0, backlog => (.ok false, backlog)
  | n + 1, backlog =>
    if canceled then (.ok false, backlog)
    else
      match backlog with
      | [] => searchBacklogGo is_dir canceled hd n []
      | b :: rest =>
        match compare_paths is_dir b.path hd.path with
        | .ok _ =>
          if b.hash = hd.hash then (.ok true, rest)
          else (.error (.Mismatch (path_string hd.path)), rest)
        | .error .Unrelated => searchBacklogGo is_dir canceled hd n (rest ++ [b])
        | .error (.Audit e) =>
          match e with
          | .EmptyDir p => (.error (.EmptyDir p), rest ++ [b])
          | e => (.error e, rest)

/-- `Checker::search_backlog`: iterate the loop body `backlog.len()` times. -/
def Checker.search_backlog (is_dir : RPath → Bool) (canceled : Bool)
    (hd : HashData) (backlog : List HashData) :
    Except AuditError Bool × List HashData :=
  searchBacklogGo is_dir canceled hd backlog.length backlog

/-- C1 counterexample: take the manifest record `B = (d/f, h1)` (the file
side) and the live record `L = (d, empty)` where `d` is a directory on the
live filesystem.  `compare_paths` yields `EmptyDir` (the spec's
`EmptyDirUnexpected`) as the claim says, but `search_backlog` pushes `B`
back: the backlog still contains `B` although `B` was the file side, so
"removes B iff B was the file side" is false. -/
theorem c1_counterexample :
    compare_paths (fun p => p == "d".toList) "d/f".toList "d".toList
      = .error (.Audit (.EmptyDir "d".toList)) ∧
    Checker.search_backlog (fun p => p == "d".toList) false
      ⟨"d".toList, none⟩ [⟨"d/f".toList, some "h1".toList⟩]
      = (.error (.EmptyDir "d".toList), [⟨"d/f".toList, some "h1".toList⟩]) :=
  ⟨rfl, rfl⟩

/-- C1 (amended): for an inconsistent backlog pair, `compare_paths` yields
`Extra(L.path)` when the manifest path is the directory and
`EmptyDirUnexpected` when the manifest path is the file, and the backlog
search removes `B` iff `B` was the *directory* side; when `B` is the file
side the finding is emitted but `B` is pushed back onto the backlog. -/
theorem c1_amended_inconsistent_pair (is_dir : RPath → Bool) (B L : HashData)
    (rest : List HashData) :
    (is_dir B.path = true → is_dir L.path = false →
      parentPath L.path = some B.path →
      compare_paths is_dir B.path L.path
          = .error (.Audit (.Extra (path_string L.path))) ∧
      Checker.search_backlog is_dir false L (B :: rest)
          = (.error (.Extra (path_string L.path)), rest)) ∧
    (is_dir B.path = false → is_dir L.path = true →
      parentPath B.path = some L.path →
      compare_paths is_dir B.path L.path
          = .error (.Audit (.EmptyDir (path_string L.path))) ∧
      Checker.search_backlog is_dir false L (B :: rest)
          = (.error (.EmptyDir (path_string L.path)), rest ++ [B])) := by
  constructor
  · intro h1 h2 hpar
    have hne : B.path ≠ L.path := fun he => by rw [he, h2] at h1; exact Bool.noConfusion h1
    have hcmp : compare_paths is_dir B.path L.path
        = .error (.Audit (.Extra (path_string L.path))) := by
      unfold compare_paths
      rw [if_neg hne, h1, h2, hpar]
      simp
    refine ⟨hcmp, ?_⟩
    unfold Checker.search_backlog searchBacklogGo
    simp [hcmp]
  · intro h1 h2 hpar
    have hne : B.path ≠ L.path := fun he => by rw [he, h2] at h1; exact Bool.noConfusion h1
    have hcmp : compare_paths is_dir B.path L.path
        = .error (.Audit (.EmptyDir (path_string L.path))) := by
      unfold compare_paths
      rw [if_neg hne, h1, h2, hpar]
      simp
    refine ⟨hcmp, ?_⟩
    unfold Checker.search_backlog searchBacklogGo
    simp [hcmp]

/-- C1 witness: the amended theorem applied to the two concrete pairs:
`B = (d, empty)` directory side against live `d/f` (B removed), and
`B = (d/f, h)` file side against live `d` (B pushed back). -/
theorem c1_amended_witness :
    Checker.search_backlog (fun p => p == "d".toList) false
      ⟨"d/f".toList, some "h".toList⟩ [⟨"d".toList, none⟩]
      = (.error (.Extra "d/f".toList), []) ∧
    Checker.search_backlog (fun p => p == "d".toList) false
      ⟨"d".toList, none⟩ [⟨"d/f".toList, some "h".toList⟩]
      = (.error (.EmptyDir "d".toList), [⟨"d/f".toList, some "h".toList⟩]) :=
  ⟨((c1_amended_inconsistent_pair (fun p => p == "d".toList)
      ⟨"d".toList, none⟩ ⟨"d/f".toList, some "h".toList⟩ []).1
      (by decide) (by decide) (by decide)).2,
   ((c1_amended_inconsistent_pair (fun p => p == "d".toList)
      ⟨"d/f".toList, some "h".toList⟩ ⟨"d".toList, none⟩ []).2
      (by decide) (by decide) (by decide)).2⟩

/-- `Checker::read_next` (`src/exec/checker.rs` lines 184-194): pull one
line from the manifest reader (an iterator of lines, each possibly an I/O
error) and parse it.  Returns the result together with the rest of the
reader. -/
def Checker.read_next (empty_dirs : Bool) :
    List (Except Str Str) → Except Error (Option HashData) × List (Except Str Str)
  | [] => (.ok none, [])
  | .error e :: rest => (.error (.ReadLine e), rest)
  | .ok line :: rest => ((HashData.try_from_string line empty_dirs).map some, rest)

/-- `Checker::flush_reader` (`src/exec/checker.rs` lines 305-310): read
every remaining manifest line, pushing each parsed record onto the back of
the backlog; the first read or parse error propagates.  The `while let`
over `read_next` is unrolled into structural recursion on the reader. -/
def Checker.flush_reader (empty_dirs : Bool) :
    List (Except Str Str) → List HashData → Except Error (List HashData)
  | [], backlog => .ok backlog
  | .error e :: _, _ => .error (.ReadLine e)
  | .ok line :: rest, backlog =>
    match HashData.try_from_string line empty_dirs with
    | .error e => .error e
    | .ok hd => Checker.flush_reader empty_dirs rest (backlog ++ [hd])

/-- The `for … in self.backlog.drain(..)` loop of `Checker::check`
(`src/exec/checker.rs` lines 319-325): before each entry the cancel flag is
observed (returning the current `audit_err` if set), otherwise
`NotFound(path)` is reported; `print_and_cancel` latches the flag when
`early`.  Completing the loop returns `true`. -/
def checkDrainGo (early : Bool) (audit_err : Bool) :
    Bool → List HashData → List AuditError × Bool
  | _, [] => ([], true)
  | canceled, hd :: rest =>
    if canceled then ([], audit_err)
    else
      let next := checkDrainGo early audit_err (canceled || early) rest
      (.NotFound (path_string hd.path) :: next.1, next.2)

/-- The tail of `Checker::check` (`src/exec/checker.rs` lines 312-326)
after `search` has returned: an empty backlog returns `audit_err`
directly, otherwise the drain loop runs.  Returns the reported findings
and the boolean result. -/
def Checker.check_drain (early canceled audit_err : Bool)
    (backlog : List HashData) : List AuditError × Bool :=
  if backlog.isEmpty then ([], audit_err)
  else checkDrainGo early audit_err canceled backlog

/-- The comparator's behaviour from the moment the live channel closes
(`Checker::search` lines 273, 302 falls through to `flush_reader`, then
`Checker::check` drains): drain the manifest into the backlog, then report. -/
def Checker.check_from_close (empty_dirs early canceled audit_err : Bool)
    (reader : List (Except Str Str)) (backlog : List HashData) :
    Except Error (List AuditError × Bool) :=
  match Checker.flush_reader empty_dirs reader backlog with
  | .error e => .error e
  | .ok backlog2 => .ok (Checker.check_drain early canceled audit_err backlog2)

theorem checkDrainGo_no_cancel (a : Bool) (backlog : List HashData) :
    checkDrainGo false a false backlog
      = (backlog.map (fun hd => AuditError.NotFound (path_string hd.path)), true) := by
  induction backlog with
  | nil => rfl
  | cons hd rest ih => simp [checkDrainGo, ih]

/-- Parsing of one reader item, the body of `read_next` on a single line;
used to state what draining the whole reader produces. -/
def parseItem (ed : Bool) : Except Str Str → Except Error HashData
  | .error e => .error (.ReadLine e)
  | .ok line => HashData.try_from_string line ed

/-- C4: when the live channel closes, `flush_reader` drains every remaining
manifest line into the backlog (it equals parsing all lines and appending
them), and the drain loop of `check` then reports `NotFound(path)` for
every backlog entry, returning `true` when any entry remained; when
cancellation is observed during the drain (already latched, or latched by
`early` after the first finding) `NotFound` is not reported for the
remaining entries and the prior `audit_err` is returned. -/
theorem c4_close_drain_notfound :
    (∀ (ed : Bool) (reader : List (Except Str Str)) (backlog : List HashData),
      Checker.flush_reader ed reader backlog
        = (reader.mapM' (parseItem ed)).map (fun hds => backlog ++ hds)) ∧
    (∀ (a : Bool) (backlog : List HashData),
      Checker.check_drain false false a backlog
        = (backlog.map (fun hd => AuditError.NotFound (path_string hd.path)),
           if backlog.isEmpty then a else true)) ∧
    (∀ (early a : Bool) (hd : HashData) (rest : List HashData),
      Checker.check_drain early true a (hd :: rest) = ([], a)) ∧
    (∀ (a : Bool) (h1 h2 : HashData) (rest : List HashData),
      Checker.check_drain true false a (h1 :: h2 :: rest)
        = ([AuditError.NotFound (path_string h1.path)], a)) ∧
    (∀ (ed a : Bool) (reader : List (Except Str Str))
        (backlog backlog2 : List HashData),
      Checker.flush_reader ed reader backlog = .ok backlog2 →
      Checker.check_from_close ed false false a reader backlog
        = .ok (backlog2.map (fun hd => AuditError.NotFound (path_string hd.path)),
               if backlog2.isEmpty then a else true)) := by
  have hflush : ∀ (ed : Bool) (reader : List (Except Str Str)) (backlog : List HashData),
      Checker.flush_reader ed reader backlog
        = (reader.mapM' (parseItem ed)).map (fun hds => backlog ++ hds) := by
    intro ed reader
    induction reader with
    | nil =>
      intro backlog
      simp [Checker.flush_reader, List.mapM', Except.map, pure, Except.pure]
    | cons item rest ih =>
      intro backlog
      cases item with
      | error e =>
        simp [Checker.flush_reader, List.mapM'_cons, parseItem, Except.map,
          Bind.bind, Except.bind]
      | ok line =>
        cases hline : HashData.try_from_string line ed with
        | error e =>
          simp [Checker.flush_reader, hline, List.mapM'_cons, parseItem, Except.map,
            Bind.bind, Except.bind]
        | ok hd =>
          simp only [Checker.flush_reader, hline, ih, List.mapM'_cons, parseItem]
          cases h2 : rest.mapM' (parseItem ed) with
          | error e =>
            simp [h2, Except.map, Bind.bind, Except.bind, Except.pure, pure]
          | ok hds =>
            simp [h2, Except.map, Bind.bind, Except.bind, Except.pure, pure]
  have hdrain : ∀ (a : Bool) (backlog : List HashData),
      Checker.check_drain false false a backlog
        = (backlog.map (fun hd => AuditError.NotFound (path_string hd.path)),
           if backlog.isEmpty then a else true) := by
    intro a backlog
    cases backlog with
    | nil => rfl
    | cons hd rest => simp [Checker.check_drain, checkDrainGo_no_cancel]
  refine ⟨hflush, hdrain, ?_, ?_, ?_⟩
  · intro early a hd rest
    simp [Checker.check_drain, checkDrainGo]
  · intro a h1 h2 rest
    simp [Checker.check_drain, checkDrainGo]
  · intro ed a reader backlog backlog2 h
    unfold Checker.check_from_close
    rw [h]
    exact congrArg Except.ok (hdrain a backlog2)

/-- C4 witness: `check_from_close` on a one-line manifest remainder and an
empty backlog reports exactly one `NotFound` and returns `true`. -/
theorem c4_close_drain_notfound_witness :
    Checker.check_from_close true false false false
      [Except.ok ("x".toList ++ '|' :: "aa".toList)] []
      = .ok ([AuditError.NotFound "x".toList], true) := by
  have h := c4_close_drain_notfound.2.2.2.2 true false
      [Except.ok ("x".toList ++ '|' :: "aa".toList)] []
      [⟨"x".toList, some "aa".toList⟩] (by rfl)
  simpa using h

/-- `OutFile::new` (`src/exec/outfile.rs` lines 22-45): the bytes written at
creation — header lines 1 and 2, then
`time_start <ts> - time_finish <pad>\n` where `<pad>` is a run of spaces of
exactly `ts.length`.  The timestamp produced by `current_time_string` is the
parameter `time`. -/
def OutFile.new_header (version : Str) (hash : List HashType) (time : Str) : Str :=
  "version ".toList ++ version ++ ['\n']
    ++ "algo ".toList ++ List.intercalate ",".toList (hash.map HashType.as_str) ++ ['\n']
    ++ "time_start ".toList ++ time ++ " - time_finish ".toList
    ++ List.replicate time.length ' ' ++ ['\n']

/-- Bytes consumed by `BufRead::lines` reading one line: up to and including
the first newline, or to end of file. -/
def lineLen : Str → Nat
  | [] => 0
  | c :: rest => if c = '\n' then 1 else 1 + lineLen rest

/-- Stream position after `lines().nth(n-1)`: bytes consumed reading the
first `n` lines of `file`. -/
def posAfterLines : Nat → Str → Nat
  | 0, _ => 0
  | n + 1, file => lineLen file + posAfterLines n (file.drop (lineLen file))

/-- Positional write (`FileExt::write_at` / `seek_write`): overwrite
`s.length` bytes of `file` at offset `cursor` without moving anything else
(every use below stays within the file). -/
def writeAt (file : Str) (cursor : Nat) (s : Str) : Str :=
  file.take cursor ++ s ++ file.drop (cursor + s.length)

/-- `OutFile::finish` (`src/exec/outfile.rs` lines 51-84): rewind, consume
the first three lines, back up by the new timestamp length plus the trailing
newline, and positionally write the new timestamp `time_str` there. -/
def OutFile.finish (file : Str) (time_str : Str) : Str :=
  writeAt file (posAfterLines 3 file - (time_str.length + 1)) time_str

theorem lineLen_append {l : Str} (h : '\n' ∉ l) (r : Str) :
    lineLen (l ++ '\n' :: r) = l.length + 1 := by
  induction l with
  | nil => simp [lineLen]
  | cons x xs ih =>
    simp only [List.mem_cons, not_or] at h
    rw [List.cons_append]
    show (if x = '\n' then 1 else 1 + lineLen (xs ++ '\n' :: r)) = (x :: xs).length + 1
    rw [if_neg (Ne.symm h.1), ih h.2, List.length_cons]
    omega

theorem posAfterLines_succ_line {l : Str} (h : '\n' ∉ l) (r : Str) (n : Nat) :
    posAfterLines (n + 1) (l ++ '\n' :: r) = (l.length + 1) + posAfterLines n r := by
  have hsplit : l ++ '\n' :: r = (l ++ ['\n']) ++ r := by simp
  show lineLen (l ++ '\n' :: r) + posAfterLines n ((l ++ '\n' :: r).drop (lineLen (l ++ '\n' :: r))) = _
  rw [lineLen_append h, hsplit, List.drop_left' (by simp)]

theorem finish_on_padded_header (l1 l2 pre data ts2 : Str) (padLen : Nat)
    (h1 : '\n' ∉ l1) (h2 : '\n' ∉ l2)
    (h3 : '\n' ∉ pre ++ List.replicate padLen ' ')
    (hlen : ts2.length = padLen) :
    OutFile.finish
        (l1 ++ '\n' :: (l2 ++ '\n' ::
          ((pre ++ List.replicate padLen ' ') ++ '\n' :: data))) ts2
      = l1 ++ '\n' :: (l2 ++ '\n' :: (pre ++ ts2 ++ '\n' :: data)) := by
  have hpos : posAfterLines 3
      (l1 ++ '\n' :: (l2 ++ '\n' ::
        ((pre ++ List.replicate padLen ' ') ++ '\n' :: data)))
      = (l1.length + 1) + ((l2.length + 1)
          + ((pre.length + padLen + 1) + posAfterLines 0 data)) := by
    rw [posAfterLines_succ_line h1, posAfterLines_succ_line h2,
      posAfterLines_succ_line h3]
    simp
  have hsplit : l1 ++ '\n' :: (l2 ++ '\n' ::
        ((pre ++ List.replicate padLen ' ') ++ '\n' :: data))
      = (l1 ++ '\n' :: (l2 ++ '\n' :: pre))
        ++ (List.replicate padLen ' ' ++ '\n' :: data) := by
    simp
  have hAlen : (l1 ++ '\n' :: (l2 ++ '\n' :: pre)).length
      = l1.length + 1 + (l2.length + 1) + pre.length := by
    simp
    omega
  have hcur : posAfterLines 3
      (l1 ++ '\n' :: (l2 ++ '\n' ::
        ((pre ++ List.replicate padLen ' ') ++ '\n' :: data)))
        - (ts2.length + 1)
      = (l1 ++ '\n' :: (l2 ++ '\n' :: pre)).length := by
    rw [hpos, hAlen, hlen]
    simp [posAfterLines]
    omega
  unfold OutFile.finish writeAt
  rw [hcur, hsplit, List.take_left]
  have hdrop : ((l1 ++ '\n' :: (l2 ++ '\n' :: pre))
        ++ (List.replicate padLen ' ' ++ '\n' :: data)).drop
        ((l1 ++ '\n' :: (l2 ++ '\n' :: pre)).length + ts2.length)
      = '\n' :: data := by
    have hre : (l1 ++ '\n' :: (l2 ++ '\n' :: pre))
          ++ (List.replicate padLen ' ' ++ '\n' :: data)
        = ((l1 ++ '\n' :: (l2 ++ '\n' :: pre)) ++ List.replicate padLen ' ')
          ++ '\n' :: data := by
      simp
    rw [hre, List.drop_left' (by simp [hlen]; omega)]
  rw [hdrop]
  simp

/-- C7: at creation the writer reserves in header line 3 a run of spaces
exactly as long as the start timestamp, and `finish`, under the
precondition that the finish timestamp has the same length as the start
timestamp, overwrites exactly that padding: every byte outside the pad —
the header prefix and all data lines — is unchanged. -/
theorem c7_finish_overwrites_only_pad
    (version ts ts2 data : Str) (hash : List HashType)
    (hv : '\n' ∉ version)
    (hj : '\n' ∉ List.intercalate ",".toList (hash.map HashType.as_str))
    (hts : '\n' ∉ ts)
    (hlen : ts2.length = ts.length) :
    OutFile.new_header version hash ts
      = ("version ".toList ++ version) ++ '\n' ::
        (("algo ".toList ++ List.intercalate ",".toList (hash.map HashType.as_str)) ++ '\n' ::
          (("time_start ".toList ++ ts ++ " - time_finish ".toList
            ++ List.replicate ts.length ' ') ++ '\n' :: ([] : Str))) ∧
    OutFile.finish (OutFile.new_header version hash ts ++ data) ts2
      = ("version ".toList ++ version) ++ '\n' ::
        (("algo ".toList ++ List.intercalate ",".toList (hash.map HashType.as_str)) ++ '\n' ::
          (("time_start ".toList ++ ts ++ " - time_finish ".toList ++ ts2)
            ++ '\n' :: data)) := by
  have h1 : '\n' ∉ "version ".toList ++ version := by
    intro hmem
    rcases List.mem_append.mp hmem with h | h
    · exact absurd h (by decide)
    · exact hv h
  have h2 : '\n' ∉ "algo ".toList
      ++ List.intercalate ",".toList (hash.map HashType.as_str) := by
    intro hmem
    rcases List.mem_append.mp hmem with h | h
    · exact absurd h (by decide)
    · exact hj h
  have h3 : '\n' ∉ ("time_start ".toList ++ ts ++ " - time_finish ".toList)
      ++ List.replicate ts.length ' ' := by
    intro hmem
    simp only [List.append_assoc, List.mem_append, List.mem_replicate] at hmem
    rcases hmem with h | h | h | h
    · exact absurd h (by decide)
    · exact hts h
    · exact absurd h (by decide)
    · exact absurd h.2 (by decide)
  constructor
  · simp [OutFile.new_header]
  · have hfile : OutFile.new_header version hash ts ++ data
        = ("version ".toList ++ version) ++ '\n' ::
          (("algo ".toList ++ List.intercalate ",".toList (hash.map HashType.as_str)) ++ '\n' ::
            ((("time_start ".toList ++ ts ++ " - time_finish ".toList)
              ++ List.replicate ts.length ' ') ++ '\n' :: data)) := by
      simp [OutFile.new_header]
    rw [hfile, finish_on_padded_header _ _ _ _ _ _ h1 h2 h3 hlen]

/-- C7 witness: a concrete finish with the `[NO DATE]` timestamp on a
one-record manifest; the data line is untouched and the pad is replaced. -/
theorem c7_finish_overwrites_only_pad_witness :
    OutFile.finish
      (OutFile.new_header "0.1.0".toList [HashType.Sha256] "[NO DATE]".toList
        ++ "f|00\n".toList) "[NO DATE]".toList
      = ("version ".toList ++ "0.1.0".toList) ++ '\n' ::
        (("algo ".toList
            ++ List.intercalate ",".toList ([HashType.Sha256].map HashType.as_str)) ++ '\n' ::
          (("time_start ".toList ++ "[NO DATE]".toList ++ " - time_finish ".toList
            ++ "[NO DATE]".toList) ++ '\n' :: "f|00\n".toList)) :=
  (c7_finish_overwrites_only_pad "0.1.0".toList "[NO DATE]".toList
    "[NO DATE]".toList "f|00\n".toList [HashType.Sha256]
    (by decide) (by decide) (by decide) (by decide)).2

/-- The filesystem and digest oracles used by the work engine: whether a
path is a directory, its entries (`read_dir`, which may fail with an I/O
error message), and the hex digest `hash_file` computes for a file under an
algorithm (or an I/O error message). -/
structure Fs where
  is_dir : RPath → Bool
  read_dir : RPath → Except Str (List RPath)
  hash_value : HashType → RPath → Except Str Str

/-- `src/hashing.rs`: the `Hashed` enum. -/
inductive Hashed where
  | Value (s : Str)
  | Canceled
deriving DecidableEq, Repr

/-- `hash_file` (`src/hashing.rs` lines 72-87): opening the file can fail;
with the file open, an observed cancel flag yields `Canceled`, otherwise
the digest value.  In this single-thread embedding the flag is constant
for the duration of the call. -/
def hash_file (fs : Fs) (canceled : Bool) (ht : HashType) (path : RPath) :
    Except Str Hashed :=
  match fs.hash_value ht path with
  | .error e => .error e
  | .ok v => .ok (if canceled then .Canceled else .Value v)

/-- `HashData::push_hash` (`src/exec/mod.rs` lines 51-57) on the digest
field: append `,hash` to an existing digest string, or start one. -/
def HashData.push_hash (acc : Option Str) (hash_str : Str) : Option Str :=
  match acc with
  | some hashes => some (hashes ++ ',' :: hash_str)
  | none => some hash_str

/-- `Queue::push_dir` (`src/exec/mod.rs` lines 152-170): append the
directory's entries to the queue and report whether it was empty.  With the
cancel flag unset (the only state in which `run` reaches it) the whole
listing is pushed. -/
def Queue.push_dir (fs : Fs) (queue : List RPath) (path : RPath) :
    Except Error (List RPath × Bool) :=
  match fs.read_dir path with
  | .error e => .error (.Io e (path_string path))
  | .ok children => .ok (queue ++ children, children.isEmpty)

/-- The `for hash in hashes` body of `run` (`src/exec/mod.rs` lines
105-114): hash the file under every configured algorithm in order,
accumulating the comma-joined digest string; `Canceled` aborts the run
cleanly, an I/O error becomes `Error::Io` (after latching the cancel
flag). -/
def hashFileLoop (fs : Fs) (canceled : Bool) (path : RPath) :
    List HashType → Option Str → Except Error (Option (Option Str))
  | [], acc => .ok (some acc)
  | ht :: rest, acc =>
    match hash_file fs canceled ht path with
    | .error e => .error (.Io e (path_string path))
    | .ok .Canceled => .ok none
    | .ok (.Value v) => hashFileLoop fs canceled path rest (HashData.push_hash acc v)

/-- `run` (`src/exec/mod.rs` lines 86-119), fuelled: pop a path; observe the
cancel flag; a directory is expanded (emitting an empty-directory record
exactly when it was empty and `empty_dirs` is set); a file is hashed under
every algorithm and its record handed to the sink.  The sink is the audit
channel sender (infallible); returns the emitted records in order together
with `run`'s `Result`.  Exhausted fuel behaves like an exhausted queue,
which every terminating execution reaches. -/
def runGo (fs : Fs) (hashes : List HashType) (empty_dirs : Bool) :
    Nat → Bool → List RPath → List HashData × Except Error Unit
  | 0, _, _ => ([], .ok ())
  | fuel + 1, canceled, queue =>
    match queue with
    | [] => ([], .ok ())
    | path :: rest =>
      if canceled then ([], .ok ())
      else if fs.is_dir path then
        match Queue.push_dir fs rest path with
        | .error e => ([], .error e)
        | .ok (queue2, is_empty) =>
          if is_empty && empty_dirs then
            let next := runGo fs hashes empty_dirs fuel canceled queue2
            (⟨path, none⟩ :: next.1, next.2)
          else
            runGo fs hashes empty_dirs fuel canceled queue2
      else
        match hashFileLoop fs canceled path hashes none with
        | .error e => ([], .error e)
        | .ok none => ([], .ok ())
        | .ok (some digests) =>
          let next := runGo fs hashes empty_dirs fuel canceled rest
          (⟨path, digests⟩ :: next.1, next.2)

theorem runGo_dir_records (fs : Fs) (hashes : List HashType) (ed : Bool) :
    ∀ (fuel : Nat) (q : List RPath) (rec : HashData),
      rec ∈ (runGo fs hashes ed fuel false q).1 →
      fs.is_dir rec.path = true →
      ed = true ∧ rec.hash = none ∧ fs.read_dir rec.path = .ok [] := by
  intro fuel
  induction fuel with
  | zero =>
    intro q rec hmem _
    simp [runGo] at hmem
  | succ n ih =>
    intro q rec hmem hdir
    cases q with
    | nil => simp [runGo] at hmem
    | cons path rest =>
      simp only [runGo, Bool.false_eq_true, if_false] at hmem
      by_cases hd : fs.is_dir path
      · rw [if_pos hd] at hmem
        cases hread : fs.read_dir path with
        | error e =>
          simp [Queue.push_dir, hread] at hmem
        | ok children =>
          simp only [Queue.push_dir, hread] at hmem
          by_cases hie : (children.isEmpty && ed) = true
          · rw [if_pos hie] at hmem
            rcases List.mem_cons.mp hmem with hrec | hrec
            · subst hrec
              obtain ⟨hce, hed⟩ : children.isEmpty = true ∧ ed = true := by
                simpa using hie
              refine ⟨hed, rfl, ?_⟩
              rw [List.isEmpty_iff] at hce
              rw [hce] at hread
              exact hread
            · exact ih _ rec hrec hdir
          · rw [if_neg hie] at hmem
            exact ih _ rec hmem hdir
      · rw [if_neg hd] at hmem
        cases hloop : hashFileLoop fs false path hashes none with
        | error e => simp [hloop] at hmem
        | ok r =>
          cases r with
          | none => simp [hloop] at hmem
          | some digests =>
            rw [hloop] at hmem
            rcases List.mem_cons.mp hmem with hrec | hrec
            · subst hrec
              exact absurd hdir hd
            · exact ih _ rec hrec hdir

/-- C5: an empty directory popped by the run loop yields the record
`(path, none)` exactly when `empty_dirs` is set and yields nothing
otherwise; a non-empty directory yields no record at all (its entries are
queued); and in general every emitted record whose path is a directory is
an empty-directory record emitted under `empty_dirs = true`. -/
theorem c5_empty_dir_emission (fs : Fs) (hashes : List HashType) (fuel : Nat)
    (p : RPath) (q : List RPath) :
    (fs.is_dir p = true → fs.read_dir p = .ok [] →
      runGo fs hashes true (fuel + 1) false (p :: q)
        = ((⟨p, none⟩ : HashData) :: (runGo fs hashes true fuel false q).1,
           (runGo fs hashes true fuel false q).2) ∧
      runGo fs hashes false (fuel + 1) false (p :: q)
        = runGo fs hashes false fuel false q) ∧
    (∀ children, fs.is_dir p = true → fs.read_dir p = .ok children →
      children ≠ [] →
      ∀ ed : Bool, runGo fs hashes ed (fuel + 1) false (p :: q)
        = runGo fs hashes ed fuel false (q ++ children)) ∧
    (∀ (ed : Bool) (rec : HashData),
      rec ∈ (runGo fs hashes ed fuel false q).1 →
      fs.is_dir rec.path = true →
      ed = true ∧ rec.hash = none ∧ fs.read_dir rec.path = .ok []) := by
  refine ⟨fun hd hread => ⟨?_, ?_⟩, fun children hd hread hne ed => ?_,
    fun ed rec hmem hdir => runGo_dir_records fs hashes ed fuel q rec hmem hdir⟩
  · simp [runGo, hd, Queue.push_dir, hread]
  · simp [runGo, hd, Queue.push_dir, hread]
  · have hie : children.isEmpty = false := by
      cases children with
      | nil => exact absurd rfl hne
      | cons a b => rfl
    simp [runGo, hd, Queue.push_dir, hread, hie]

/-- C5 witness: on a filesystem whose only entry is the empty directory
`d`, one loop step emits `(d, none)` under `empty_dirs = true` and nothing
under `empty_dirs = false`. -/
theorem c5_empty_dir_emission_witness :
    runGo ⟨fun p => p == "d".toList, fun _ => .ok [], fun _ _ => .ok "00".toList⟩
      [HashType.Sha256] true 1 false ["d".toList]
      = ([(⟨"d".toList, none⟩ : HashData)], .ok ()) ∧
    runGo ⟨fun p => p == "d".toList, fun _ => .ok [], fun _ _ => .ok "00".toList⟩
      [HashType.Sha256] false 1 false ["d".toList]
      = ([], .ok ()) := by
  have h := (c5_empty_dir_emission
    ⟨fun p => p == "d".toList, fun _ => .ok [], fun _ _ => .ok "00".toList⟩
    [HashType.Sha256] 0 "d".toList []).1 rfl rfl
  exact ⟨by simpa [runGo] using h.1, by simpa [runGo] using h.2⟩

/-- The operations of the program that touch the cancel flag.  In
`src/exec/mod.rs` the flag is `static CANCEL: AtomicBool`, private to the
module; the only store anywhere is `CANCEL.store(true, …)` inside `cancel()`
(lines 27-30), `is_canceled()` (lines 32-34) only loads, and the start of a
run performs no store (no operation that writes `false` exists, so no
caller of the module can reset the flag). -/
inductive CancelOp where
  | cancelCall
  | isCanceledCall
  | runStart
deriving DecidableEq, Repr

/-- Effect of each flag-touching operation on the flag. -/
def CancelOp.apply : CancelOp → Bool → Bool
  | .cancelCall, _ => true
  | .isCanceledCall, f => f
  | .runStart, f => f

/-- The flag after a sequence of operations. -/
def applyCancelOps (ops : List CancelOp) (f : Bool) : Bool :=
  ops.foldl (fun acc op => op.apply acc) f

/-- `static CANCEL: AtomicBool = AtomicBool::new(false)`
(`src/exec/mod.rs` line 25): the flag at process start. -/
def CANCEL_init : Bool := false

/-- `cancel_on_err` (`src/exec/mod.rs` lines 121-126): latch the flag on an
error result, pass the result through unchanged. -/
def cancel_on_err {ε α : Type} (result : Except ε α) (flag : Bool) :
    Except ε α × Bool :=
  match result with
  | .error e => (.error e, CancelOp.cancelCall.apply flag)
  | .ok a => (.ok a, flag)

/-- C9 counterexample: the claim says the flag is created per run and starts
false at the beginning of every run.  The flag is a process-wide static: it
starts false at process start, but after a cancellation (here one `cancel()`
call) the start of the next run in the same process observes it already
true — no operation resets it. -/
theorem c9_counterexample :
    CANCEL_init = false ∧
    applyCancelOps [CancelOp.cancelCall, CancelOp.runStart] CANCEL_init = true ∧
    CancelOp.runStart.apply true ≠ false := by
  refine ⟨rfl, rfl, ?_⟩
  intro h
  exact Bool.noConfusion h

/-- C9 (amended): the cancel flag is a single process-wide static
initialized false at process start; it is monotonic (every operation
preserves `true`, over any sequence), `cancel_on_err` latches it to true
before propagating any error, and it never propagates a changed result. -/
theorem c9_amended_cancel_monotone :
    CANCEL_init = false ∧
    (∀ (op : CancelOp) (f : Bool), f = true → op.apply f = true) ∧
    (∀ (ops : List CancelOp) (f : Bool), f = true → applyCancelOps ops f = true) ∧
    (∀ (ε α : Type) (r : Except ε α) (f : Bool), r.isOk = false →
      (cancel_on_err r f).2 = true) ∧
    (∀ (ε α : Type) (r : Except ε α) (f : Bool), (cancel_on_err r f).1 = r) := by
  refine ⟨rfl, fun op f hf => ?_, fun ops => ?_, fun ε α r f hr => ?_, fun ε α r f => ?_⟩
  · cases op <;> simp [CancelOp.apply, hf]
  · induction ops with
    | nil => intro f hf; exact hf
    | cons op rest ih =>
      intro f hf
      have h1 : op.apply f = true := by cases op <;> simp [CancelOp.apply, hf]
      simpa [applyCancelOps] using ih (op.apply f) h1
  · cases r with
    | error e => rfl
    | ok a => simp [Except.isOk, Except.toBool] at hr
  · cases r <;> rfl

/-- C9 witness: the amended theorem at a concrete operation sequence and a
concrete error. -/
theorem c9_amended_cancel_monotone_witness :
    applyCancelOps [CancelOp.isCanceledCall, CancelOp.runStart] true = true ∧
    (cancel_on_err (Except.error "boom".toList : Except Str Unit) false).2 = true :=
  ⟨c9_amended_cancel_monotone.2.2.1 [CancelOp.isCanceledCall, CancelOp.runStart] true rfl,
   c9_amended_cancel_monotone.2.2.2.1 Str Unit (Except.error "boom".toList) false rfl⟩

/-- A Rust computation that can also diverge by panicking. -/
inductive RustOutcome (ε α : Type) where
  | ok (a : α)
  | err (e : ε)
  | panicked (msg : Str)
deriving DecidableEq, Repr

/-- Rust `char::is_whitespace`, ASCII fragment (the rotational file holds
ASCII). -/
def isWsChar (c : Char) : Bool :=
  c = ' ' || c = '\t' || c = '\n' || c = '\r'

/-- Rust `str::trim`. -/
def strTrim (s : Str) : Str :=
  ((s.dropWhile isWsChar).reverse.dropWhile isWsChar).reverse

/-- `linux_path::is_rotational` (`src/path.rs` lines 223-235): read
`/sys/block/<volume>/queue/rotational` (the oracle result is `content`);
`1`/`0` after trimming answer the query, an open/read failure is an
`io::Error`, and any other content panics with the quoted value. -/
def is_rotational (content : Except Str Str) : RustOutcome Str Bool :=
  match content with
  | .error e => .err e
  | .ok value =>
    let val := strTrim value
    if val = "1".toList then .ok true
    else if val = "0".toList then .ok false
    else .panicked ("unexpected content for rotational file: `".toList
      ++ val ++ "`".toList)

/-- `src/path.rs` lines 30-33: the `PathList` enum. -/
inductive PathList (α : Type) where
  | Ssd (paths : List α)
  | Hdd (paths : List α)
deriving DecidableEq, Repr

/-- The platform capability used by `path_on_fast_drive` on Linux:
`find_volume_name` (findmnt + device-name extraction) and the content of
the device's rotational file. -/
structure Platform where
  find_volume_name : RPath → Except Str Str
  rotational_content : Str → Except Str Str

/-- Append a path to the group of its (already seen) volume, as the
`Entry::Occupied` arm does. -/
def addToGroup : List (Str × PathList RPath) → Str → RPath
    → List (Str × PathList RPath)
  | [], _, _ => []
  | (v, .Ssd l) :: rest, vol, p =>
    if v = vol then (v, .Ssd (l ++ [p])) :: rest
    else (v, .Ssd l) :: addToGroup rest vol p
  | (v, .Hdd l) :: rest, vol, p =>
    if v = vol then (v, .Hdd (l ++ [p])) :: rest
    else (v, .Hdd l) :: addToGroup rest vol p

/-- The loop of `path_on_fast_drive` (`src/path.rs` lines 241-283).  The
hash-map iteration and final `into_values` orders are modelled as the input
order (insertion order of first-seen device for groups).  `all` is the full
original path set: on any failure the code returns it whole, together with
the error, and classification stops. -/
def pathOnFastDriveGo (pf : Platform) (all : List RPath) :
    List RPath → List (Str × PathList RPath)
    → RustOutcome (List RPath × Str) (List (PathList RPath))
  | [], groups => .ok (groups.map Prod.snd)
  | p :: rest, groups =>
    match pf.find_volume_name p with
    | .error e => .err (all, e)
    | .ok vol =>
      if groups.any (fun g => g.1 = vol) then
        pathOnFastDriveGo pf all rest (addToGroup groups vol p)
      else
        match is_rotational (pf.rotational_content vol) with
        | .panicked m => .panicked m
        | .err e => .err (all, e)
        | .ok true => pathOnFastDriveGo pf all rest (groups ++ [(vol, .Hdd [p])])
        | .ok false => pathOnFastDriveGo pf all rest (groups ++ [(vol, .Ssd [p])])

/-- `path_on_fast_drive` (`src/path.rs` lines 241-283). -/
def path_on_fast_drive (pf : Platform) (paths : List RPath) :
    RustOutcome (List RPath × Str) (List (PathList RPath)) :=
  pathOnFastDriveGo pf paths paths []

/-- C8 counterexample: with one input path on volume `sda` whose rotational
file reads `2`, the classifier panics instead of tagging the device FAST;
and when the rotational read fails with an I/O error the classifier does
not return a grouping at all but aborts with the full path list and the
error. -/
theorem c8_counterexample :
    path_on_fast_drive
      ⟨fun _ => .ok "sda".toList, fun _ => .ok "2\n".toList⟩ ["a".toList]
      = .panicked "unexpected content for rotational file: `2`".toList ∧
    path_on_fast_drive
      ⟨fun _ => .ok "sda".toList, fun _ => .error "denied".toList⟩ ["a".toList]
      = .err (["a".toList], "denied".toList) := by
  constructor
  · rfl
  · rfl

/-- C8 (amended): drive-classification failures are not degraded inside the
classifier: an unexpected value in the rotational file makes
`is_rotational` panic, which aborts `path_on_fast_drive`; a platform or
I/O failure for the first queried device makes `path_on_fast_drive` return
`Err` carrying every input path together with the error (no FAST tagging,
no grouping — the caller receives all paths to degrade as it sees fit). -/
theorem c8_amended_classifier_failure (pf : Platform) (p : RPath)
    (rest : List RPath) :
    (∀ vol m, pf.find_volume_name p = .ok vol →
      is_rotational (pf.rotational_content vol) = .panicked m →
      path_on_fast_drive pf (p :: rest) = .panicked m) ∧
    (∀ vol e, pf.find_volume_name p = .ok vol →
      is_rotational (pf.rotational_content vol) = .err e →
      path_on_fast_drive pf (p :: rest) = .err (p :: rest, e)) ∧
    (∀ e, pf.find_volume_name p = .error e →
      path_on_fast_drive pf (p :: rest) = .err (p :: rest, e)) := by
  refine ⟨fun vol m hvol hrot => ?_, fun vol e hvol hrot => ?_, fun e hvol => ?_⟩
  · simp [path_on_fast_drive, pathOnFastDriveGo, hvol, hrot]
  · simp [path_on_fast_drive, pathOnFastDriveGo, hvol, hrot]
  · simp [path_on_fast_drive, pathOnFastDriveGo, hvol]

/-- C8 witness: the amended theorem at a concrete platform whose volume
query fails. -/
theorem c8_amended_classifier_failure_witness :
    path_on_fast_drive
      ⟨fun _ => .error "no findmnt".toList, fun _ => .ok "0".toList⟩
      ["a".toList, "b".toList]
      = .err (["a".toList, "b".toList], "no findmnt".toList) :=
  (c8_amended_classifier_failure
    ⟨fun _ => .error "no findmnt".toList, fun _ => .ok "0".toList⟩
    "a".toList ["b".toList]).2.2 "no findmnt".toList rfl

/-- The outcome of a whole run of the old library entry point. -/
inductive RunOutcome (α : Type) where
  | ok (a : α)
  | err (e : Error)
  | panicked (msg : Str)
deriving DecidableEq, Repr

/-- `Queue::new` from `src/lib.rs` (lines 130-145): query each input path's
metadata (the oracle `metadata_is_dir`, failing with an I/O error message);
a directory without `recursive` is `IsDir`; otherwise the path joins the
queue, in order. -/
def libQueue_new (metadata_is_dir : Str → Except Str Bool) :
    List Str → Bool → Except Error (List RPath)
  | [], _ => .ok []
  | path :: rest, recursive =>
    match metadata_is_dir path with
    | .error e => .error (.Io e path)
    | .ok isdir =>
      if isdir && !recursive then .error (.IsDir path)
      else (libQueue_new metadata_is_dir rest recursive).map (fun q => path :: q)

/-- `create_hashes` from `src/lib.rs` (lines 257-293): build the queue,
create the output file (its result is the oracle `outfile_new`), then enter
`thread::scope`, whose body begins with `let max_threads = max_threads - 1`
on a `u8`.  With overflow checks (Rust debug semantics) `0 - 1` panics with
"attempt to subtract with overflow"; otherwise the loop runs — everything
after the subtraction is the continuation `scope_rest`, entered with
`max_threads - 1` and never reached when the subtraction panics. -/
def create_hashes (metadata_is_dir : Str → Except Str Bool)
    (outfile_new : Except Error Unit) (input : List Str) (recursive : Bool)
    (max_threads : Nat) (scope_rest : Nat → RunOutcome Unit) :
    RunOutcome Unit :=
  match libQueue_new metadata_is_dir input recursive with
  | .error e => .err e
  | .ok _ =>
    match outfile_new with
    | .error e => .err e
    | .ok _ =>
      if max_threads = 0 then
        .panicked "attempt to subtract with overflow".toList
      else scope_rest (max_threads - 1)

/-- C10 counterexample: the claim quantifies over every input, but when the
queue construction itself fails — here the single input is a directory and
`recursive` is false — `create_hashes` with `max_threads = 0` returns
`Err(IsDir)` before reaching the subtraction, so it does not panic. -/
theorem c10_counterexample :
    create_hashes (fun _ => .ok true) (.ok ()) ["src".toList] false 0
        (fun _ => .ok ())
      = .err (.IsDir "src".toList) ∧
    (RunOutcome.err (.IsDir "src".toList) : RunOutcome Unit)
      ≠ .panicked "attempt to subtract with overflow".toList := by
  exact ⟨rfl, by decide⟩

/-- C10 (amended): for every input on which the queue and the output file
are constructed successfully, calling `create_hashes` with
`max_threads = 0` panics with the `u8` subtraction-overflow message before
any hashing begins (the scope continuation is never entered); when setup
fails the error is returned instead and no panic occurs. -/
theorem c10_amended_zero_threads :
    (∀ (metadata_is_dir : Str → Except Str Bool) (input : List Str)
        (recursive : Bool) (scope_rest : Nat → RunOutcome Unit)
        (q : List RPath),
      libQueue_new metadata_is_dir input recursive = .ok q →
      create_hashes metadata_is_dir (.ok ()) input recursive 0 scope_rest
        = .panicked "attempt to subtract with overflow".toList) ∧
    (∀ (metadata_is_dir : Str → Except Str Bool) (input : List Str)
        (recursive : Bool) (scope_rest : Nat → RunOutcome Unit)
        (outfile_new : Except Error Unit) (max_threads : Nat) (e : Error),
      libQueue_new metadata_is_dir input recursive = .error e →
      create_hashes metadata_is_dir outfile_new input recursive max_threads
          scope_rest
        = .err e) := by
  constructor
  · intro metadata_is_dir input recursive scope_rest q hq
    simp [create_hashes, hq]
  · intro metadata_is_dir input recursive scope_rest outfile_new max_threads e he
    simp [create_hashes, he]

/-- C10 witness: a regular-file input whose setup succeeds panics at
`max_threads = 0`, applied from the amended theorem. -/
theorem c10_amended_zero_threads_witness :
    create_hashes (fun _ => .ok false) (.ok ()) ["f.bin".toList] false 0
        (fun _ => .ok ())
      = .panicked "attempt to subtract with overflow".toList :=
  c10_amended_zero_threads.1 (fun _ => .ok false) ["f.bin".toList] false
    (fun _ => .ok ()) ["f.bin".toList] rfl
